import Mathlib

/-!
Verification of the recipe-lifecycle / local-persistence core of the
Azubi-Rezepte app (src/index.tsx), shallowly embedded in Lean.

The persistent storage (the browser's `localStorage` entry under the key
`savedRecipes`) is modelled as `Option (List Recipe)`: `none` when the key is
absent, `some rs` when the key holds the JSON serialisation of the list `rs`.
Each storage function re-reads the blob (`getSavedRecipes`) and returns the
storage state after the call together with the observable outcome
(`OpResult`); a function that does not call `localStorage.setItem` on some
path returns the input storage unchanged on that path.
-/

/-- The `Recipe` record of src/index.tsx (lines 8-14): `imageUrl` is an
optional field, `none` meaning absent. -/
structure Recipe where
  recipeName : String
  description : String
  ingredients : List String
  instructions : List String
  imageUrl : Option String
deriving DecidableEq, Repr

/-- Character-wise model of JavaScript `String.prototype.toLowerCase`
(each character mapped to its lower-case form). -/
def toLowerCase (s : String) : String := String.mk (s.data.map Char.toLower)

/-- Character-wise model of JavaScript `String.prototype.trim`: whitespace
stripped from both ends. -/
def trimString (s : String) : String :=
  String.mk (((s.data.dropWhile Char.isWhitespace).reverse.dropWhile
    Char.isWhitespace).reverse)

/-- Model of JavaScript `raw.split(newline)`: split at every newline
character, keeping empty segments. -/
def splitOnNewline (s : String) : List String :=
  (s.data.splitOn (Char.ofNat 10)).map String.mk

/-- Case-insensitive name comparison as the code writes it:
`a.toLowerCase() === b.toLowerCase()`. -/
def nameEqCI (a b : String) : Bool := toLowerCase a == toLowerCase b

/-- The browser storage blob under the `savedRecipes` key: absent or a
serialised recipe list. -/
abbrev Storage := Option (List Recipe)

/-- Observable outcome of a store / handler call. `duplicateName` is the
duplicate alert, `notFound` the silent miss of `updateRecipeInStorage`,
`invalidInput` the validation alert of `handleAddRecipe`. -/
inductive OpResult where
  | ok
  | duplicateName
  | notFound
  | invalidInput
deriving DecidableEq, Repr

/-- `getSavedRecipes` (lines 108-111): parse the stored JSON array, or `[]`
when the key is absent. -/
def getSavedRecipes : Storage → List Recipe
  | none => []
  | some rs => rs

/-- `saveRecipeToStorage` (lines 113-123): re-read, and if no stored recipe
has a case-insensitively equal name, append and persist; otherwise alert
(`duplicateName`) without writing. -/
def saveRecipeToStorage (store : Storage) (recipe : Recipe) : Storage × OpResult :=
  let recipes := getSavedRecipes store
  if !(recipes.any fun r => nameEqCI r.recipeName recipe.recipeName) then
    (some (recipes ++ [recipe]), OpResult.ok)
  else
    (store, OpResult.duplicateName)

/-- `updateRecipeInStorage` (lines 125-134): find the index of the first
stored recipe whose name case-insensitively equals `originalRecipeName`;
if found, overwrite that index and persist, otherwise do nothing
(`notFound`). -/
def updateRecipeInStorage (store : Storage) (originalRecipeName : String)
    (updatedRecipe : Recipe) : Storage × OpResult :=
  let recipes := getSavedRecipes store
  match recipes.findIdx? (fun r => nameEqCI r.recipeName originalRecipeName) with
  | some i => (some (recipes.set i updatedRecipe), OpResult.ok)
  | none => (store, OpResult.notFound)

/-- `removeRecipeFromStorage` (lines 137-143): keep exactly the entries whose
name differs from `recipeName` by case-SENSITIVE comparison (`!==`), and
persist unconditionally. -/
def removeRecipeFromStorage (store : Storage) (recipeName : String) : Storage × OpResult :=
  let recipes := getSavedRecipes store
  (some (recipes.filter fun r => r.recipeName != recipeName), OpResult.ok)

/-- `isRecipeSaved` (lines 145-148): case-insensitive containment check. -/
def isRecipeSaved (store : Storage) (recipeName : String) : Bool :=
  (getSavedRecipes store).any fun r => nameEqCI r.recipeName recipeName

/-- The line splitting used by both the edit handler and the manual-add
handler: `raw.split(backslash-n).map(trim).filter(nonempty)`. -/
def splitNonEmptyLines (s : String) : List String :=
  ((splitOnNewline s).map fun l => trimString l).filter fun l => l != ""

/-- The updated recipe the saveEditBtn click handler builds from the edit
form (lines 299-305): trimmed name and description, line-split lists, and
the newly read image when one was chosen, else the original image. -/
def mkEditedRecipe (original : Recipe) (nameRaw descRaw ingRaw insRaw : String)
    (newImage : Option String) : Recipe :=
  { recipeName := trimString nameRaw
    description := trimString descRaw
    ingredients := splitNonEmptyLines ingRaw
    instructions := splitNonEmptyLines insRaw
    imageUrl := match newImage with | some u => some u | none => original.imageUrl }

/-- The saveEditBtn click handler of `renderRecipe` (lines 284-315), the
commitEdit operation of the spec: build the updated recipe from the form,
reject with the duplicate alert when the name changed case-insensitively and
the new name is already stored, otherwise delegate to
`updateRecipeInStorage` on the original name. -/
def commitEdit (store : Storage) (original : Recipe) (nameRaw descRaw ingRaw insRaw : String)
    (newImage : Option String) : Storage × OpResult :=
  let updatedRecipe := mkEditedRecipe original nameRaw descRaw ingRaw insRaw newImage
  if (toLowerCase updatedRecipe.recipeName != toLowerCase original.recipeName)
      && isRecipeSaved store updatedRecipe.recipeName then
    (store, OpResult.duplicateName)
  else
    updateRecipeInStorage store original.recipeName updatedRecipe

/-- The recipe the manual-add handler builds from its form (lines 441-447). -/
def mkManualRecipe (nameRaw descRaw ingRaw insRaw : String)
    (imageUrl : Option String) : Recipe :=
  { recipeName := trimString nameRaw
    description := trimString descRaw
    ingredients := splitNonEmptyLines ingRaw
    instructions := splitNonEmptyLines insRaw
    imageUrl := imageUrl }

/-- `handleAddRecipe` (lines 425-458), after a successful optional image
read: build the recipe from the form, alert (`invalidInput`) without writing
when the trimmed name is empty or either derived list is empty, otherwise
delegate to `saveRecipeToStorage`. -/
def handleAddRecipe (store : Storage) (nameRaw descRaw ingRaw insRaw : String)
    (imageUrl : Option String) : Storage × OpResult :=
  let newRecipe := mkManualRecipe nameRaw descRaw ingRaw insRaw imageUrl
  if newRecipe.recipeName == "" || newRecipe.ingredients.isEmpty
      || newRecipe.instructions.isEmpty then
    (store, OpResult.invalidInput)
  else
    saveRecipeToStorage store newRecipe

/-- The uniqueness invariant of the spec: no two stored recipes have
case-insensitively equal names, i.e. the lowered names are pairwise
distinct. -/
def uniqueNames (rs : List Recipe) : Prop :=
  (rs.map fun r => toLowerCase r.recipeName).Nodup

instance (rs : List Recipe) : Decidable (uniqueNames rs) :=
  List.nodupDecidable _

/-! ## Generation model

`generateRecipe` (lines 385-422) sends `recipeSchema` (lines 71-94, required
fields recipeName / description / ingredients / instructions, no imageUrl) to
the service, then runs `JSON.parse(result.text.trim())` and `renderRecipe`
inside one try/catch; any exception on that path is caught and an error
message is rendered instead of a recipe. The code performs no schema
validation of its own, so the observable outcome of a given parsed response
is decided by which property accesses of `renderRecipe` throw:
`recipe.recipeName.replace(...)` (line 201) and `r.recipeName.toLowerCase()`
(line 147) need a string, `recipe.ingredients.map` (line 186) and
`recipe.instructions.map` (line 192) need arrays, while
`recipe.description` is only ever string-interpolated (lines 181, 205), so a
missing description renders as the string "undefined" without any error.
-/

/-- A JavaScript value a schema-constrained response field can hold in the
model: missing (`undefined`), a string, or an array of strings. -/
inductive JsVal where
  | undef
  | str (s : String)
  | strList (l : List String)
deriving DecidableEq, Repr

/-- A parsed response document: each schema field as found by property
access, `JsVal.undef` when the key is missing. The schema has no imageUrl
property, so the document has none. -/
structure GenResponse where
  recipeName : JsVal
  description : JsVal
  ingredients : JsVal
  instructions : JsVal
deriving DecidableEq, Repr

/-- JavaScript template-literal interpolation of a field value:
`undefined` prints as "undefined", an array joins with commas. -/
def jsDisplayString : JsVal → String
  | JsVal.undef => "undefined"
  | JsVal.str s => s
  | JsVal.strList l => String.intercalate "," l

/-- The single error the generation path can surface: the catch-all handler
of `generateRecipe` (lines 416-418). -/
inductive GenError where
  | invalidResponse
deriving DecidableEq, Repr

/-- Outcome of `generateRecipe` on a service response: `none` models a
response text that `JSON.parse` rejects; on a parsed document the recipe is
rendered unless a required property access throws, in which case the catch
block renders the error. The constructed recipe never carries an image. -/
def generateRecipeFromResponse : Option GenResponse → Except GenError Recipe
  | none => Except.error GenError.invalidResponse
  | some p =>
    match p.recipeName, p.ingredients, p.instructions with
    | JsVal.str n, JsVal.strList ing, JsVal.strList ins =>
        Except.ok { recipeName := n
                    description := jsDisplayString p.description
                    ingredients := ing
                    instructions := ins
                    imageUrl := none }
    | _, _, _ => Except.error GenError.invalidResponse

/-! ## Basic lemmas about the embedded operations -/

theorem nameEqCI_true_iff {a b : String} :
    nameEqCI a b = true ↔ toLowerCase a = toLowerCase b := by
  simp [nameEqCI]

theorem nameEqCI_false_iff {a b : String} :
    nameEqCI a b = false ↔ toLowerCase a ≠ toLowerCase b := by
  simp [nameEqCI]

theorem nameEqCI_refl (a : String) : nameEqCI a a = true := by
  simp [nameEqCI]

theorem nameEqCI_symm {a b : String} (h : nameEqCI a b = true) : nameEqCI b a = true := by
  rw [nameEqCI_true_iff] at h ⊢
  exact h.symm

theorem isRecipeSaved_false_iff {store : Storage} {n : String} :
    isRecipeSaved store n = false ↔
      ∀ r ∈ getSavedRecipes store, nameEqCI r.recipeName n = false := by
  simp [isRecipeSaved]

theorem isRecipeSaved_true_iff {store : Storage} {n : String} :
    isRecipeSaved store n = true ↔
      ∃ r ∈ getSavedRecipes store, nameEqCI r.recipeName n = true := by
  simp [isRecipeSaved, List.any_eq_true]

theorem saveRecipeToStorage_of_saved {store : Storage} {recipe : Recipe}
    (h : isRecipeSaved store recipe.recipeName = true) :
    saveRecipeToStorage store recipe = (store, OpResult.duplicateName) := by
  simp only [saveRecipeToStorage]
  rw [show (getSavedRecipes store).any (fun r => nameEqCI r.recipeName recipe.recipeName)
      = true from h]
  rfl

theorem saveRecipeToStorage_of_not_saved {store : Storage} {recipe : Recipe}
    (h : isRecipeSaved store recipe.recipeName = false) :
    saveRecipeToStorage store recipe
      = (some (getSavedRecipes store ++ [recipe]), OpResult.ok) := by
  simp only [saveRecipeToStorage]
  rw [show (getSavedRecipes store).any (fun r => nameEqCI r.recipeName recipe.recipeName)
      = false from h]
  rfl

theorem updateRecipeInStorage_not_found {store : Storage} {orig : String} (upd : Recipe)
    (h : isRecipeSaved store orig = false) :
    updateRecipeInStorage store orig upd = (store, OpResult.notFound) := by
  have hnone : (getSavedRecipes store).findIdx? (fun r => nameEqCI r.recipeName orig)
      = none := by
    rw [List.findIdx?_eq_none_iff]
    exact isRecipeSaved_false_iff.mp h
  simp only [updateRecipeInStorage]
  rw [hnone]

theorem updateRecipeInStorage_found {store : Storage} {orig : String} (upd : Recipe)
    (h : isRecipeSaved store orig = true) :
    ∃ A m B, getSavedRecipes store = A ++ m :: B ∧
      (∀ r ∈ A, nameEqCI r.recipeName orig = false) ∧
      nameEqCI m.recipeName orig = true ∧
      updateRecipeInStorage store orig upd = (some (A ++ upd :: B), OpResult.ok) := by
  have hsome : ((getSavedRecipes store).findIdx?
      (fun r => nameEqCI r.recipeName orig)).isSome = true := by
    rw [List.findIdx?_isSome]
    exact h
  obtain ⟨i, hfind⟩ := Option.isSome_iff_exists.mp hsome
  obtain ⟨hi, hp, hprev⟩ := List.findIdx?_eq_some_iff_getElem.mp hfind
  refine ⟨(getSavedRecipes store).take i, (getSavedRecipes store)[i],
    (getSavedRecipes store).drop (i + 1), ?_, ?_, hp, ?_⟩
  · conv_lhs => rw [← List.take_append_drop i (getSavedRecipes store)]
    rw [List.drop_eq_getElem_cons hi]
  · intro r hr
    rw [List.mem_take_iff_getElem] at hr
    obtain ⟨j, hj, hrj⟩ := hr
    have hj' : j < i := lt_of_lt_of_le hj (min_le_left _ _)
    have hpj := hprev j hj'
    rw [hrj] at hpj
    simpa using hpj
  · simp only [updateRecipeInStorage]
    rw [hfind]
    show (some ((getSavedRecipes store).set i upd), OpResult.ok) = _
    rw [List.set_eq_take_append_cons_drop, if_pos hi]

/-! ## Claim theorems -/

/-- C2: `Store.add` fails with `DuplicateName` when the stored collection
already contains a recipe whose name equals the new recipe's name
case-insensitively; otherwise it appends the recipe at the end and persists
the full updated sequence; consequently, for two recipes with
case-insensitively equal names, the first add succeeds and the second fails
with `DuplicateName`. -/
theorem store_add_spec (store : Storage) (recipe r2 : Recipe) :
    (isRecipeSaved store recipe.recipeName = true →
      saveRecipeToStorage store recipe = (store, OpResult.duplicateName)) ∧
    (isRecipeSaved store recipe.recipeName = false →
      saveRecipeToStorage store recipe
        = (some (getSavedRecipes store ++ [recipe]), OpResult.ok)) ∧
    (nameEqCI r2.recipeName recipe.recipeName = true →
      isRecipeSaved store recipe.recipeName = false →
      (saveRecipeToStorage store recipe).2 = OpResult.ok ∧
      saveRecipeToStorage (saveRecipeToStorage store recipe).1 r2
        = ((saveRecipeToStorage store recipe).1, OpResult.duplicateName)) := by
  refine ⟨saveRecipeToStorage_of_saved, saveRecipeToStorage_of_not_saved, ?_⟩
  intro hci hnot
  rw [saveRecipeToStorage_of_not_saved hnot]
  refine ⟨rfl, ?_⟩
  apply saveRecipeToStorage_of_saved
  rw [isRecipeSaved_true_iff]
  exact ⟨recipe, by simp [getSavedRecipes], nameEqCI_symm hci⟩

/-- C2 witness: "Soup" saves into an empty store; a second recipe named
"SOUP" is then rejected with the duplicate alert, and adding "soup" to a
store holding "Soup" is rejected without a write. -/
theorem store_add_spec_witness :
    (saveRecipeToStorage (some [⟨"Soup", "", [], [], none⟩]) ⟨"soup", "x", [], [], none⟩
        = (some [⟨"Soup", "", [], [], none⟩], OpResult.duplicateName)) ∧
    (saveRecipeToStorage none ⟨"Soup", "", [], [], none⟩
        = (some (getSavedRecipes none ++ [⟨"Soup", "", [], [], none⟩]), OpResult.ok)) ∧
    ((saveRecipeToStorage none ⟨"Soup", "", [], [], none⟩).2 = OpResult.ok ∧
      saveRecipeToStorage (saveRecipeToStorage none ⟨"Soup", "", [], [], none⟩).1
          ⟨"SOUP", "y", [], [], none⟩
        = ((saveRecipeToStorage none ⟨"Soup", "", [], [], none⟩).1,
            OpResult.duplicateName)) :=
  ⟨(store_add_spec (some [⟨"Soup", "", [], [], none⟩]) ⟨"soup", "x", [], [], none⟩
      ⟨"soup", "x", [], [], none⟩).1 (by decide),
   (store_add_spec none ⟨"Soup", "", [], [], none⟩ ⟨"soup", "x", [], [], none⟩).2.1
      (by decide),
   (store_add_spec none ⟨"Soup", "", [], [], none⟩ ⟨"SOUP", "y", [], [], none⟩).2.2
      (by decide) (by decide)⟩

/-- C3: `Store.replace` finds the first stored recipe whose name matches
`originalName` case-insensitively; with no match it fails with `NotFound`
and writes nothing; otherwise it overwrites exactly that entry in place
(the entry keeps its position) with the updated recipe and persists. -/
theorem store_replace_spec (store : Storage) (orig : String) (upd : Recipe) :
    (isRecipeSaved store orig = false →
      updateRecipeInStorage store orig upd = (store, OpResult.notFound)) ∧
    (isRecipeSaved store orig = true →
      ∃ A m B, getSavedRecipes store = A ++ m :: B ∧
        (∀ r ∈ A, nameEqCI r.recipeName orig = false) ∧
        nameEqCI m.recipeName orig = true ∧
        updateRecipeInStorage store orig upd = (some (A ++ upd :: B), OpResult.ok)) :=
  ⟨updateRecipeInStorage_not_found upd, updateRecipeInStorage_found upd⟩

/-- C3 witness: replacing "b" misses in a store holding only "A"; in a
store holding "A" then "B", replacing "b" rewrites the "B" entry in place. -/
theorem store_replace_spec_witness :
    (updateRecipeInStorage (some [⟨"A", "", [], [], none⟩]) "b" ⟨"B2", "", [], [], none⟩
        = (some [⟨"A", "", [], [], none⟩], OpResult.notFound)) ∧
    (∃ A m B, getSavedRecipes (some [⟨"A", "", [], [], none⟩, ⟨"B", "", [], [], none⟩])
          = A ++ m :: B ∧
        (∀ r ∈ A, nameEqCI r.recipeName "b" = false) ∧
        nameEqCI m.recipeName "b" = true ∧
        updateRecipeInStorage (some [⟨"A", "", [], [], none⟩, ⟨"B", "", [], [], none⟩])
            "b" ⟨"B2", "", [], [], none⟩
          = (some (A ++ ⟨"B2", "", [], [], none⟩ :: B), OpResult.ok)) :=
  ⟨(store_replace_spec (some [⟨"A", "", [], [], none⟩]) "b" ⟨"B2", "", [], [], none⟩).1
      (by decide),
   (store_replace_spec (some [⟨"A", "", [], [], none⟩, ⟨"B", "", [], [], none⟩]) "b"
      ⟨"B2", "", [], [], none⟩).2 (by decide)⟩

/-- C7: adding a recipe to an empty Store succeeds, the persisted blob holds
exactly that one entry, and every subsequent `getSavedRecipes` re-read of
that persisted blob (the model of a fresh `Store.list()` after reload)
returns exactly that entry. -/
theorem store_roundtrip (store : Storage) (R : Recipe) (h : getSavedRecipes store = []) :
    saveRecipeToStorage store R = (some [R], OpResult.ok) ∧
    getSavedRecipes (saveRecipeToStorage store R).1 = [R] := by
  have hnot : isRecipeSaved store R.recipeName = false := by
    rw [isRecipeSaved_false_iff, h]
    intro r hr
    cases hr
  have heq : saveRecipeToStorage store R = (some [R], OpResult.ok) := by
    rw [saveRecipeToStorage_of_not_saved hnot, h]
    rfl
  exact ⟨heq, by rw [heq]; rfl⟩

/-- C7 witness: round trip of a concrete recipe through the absent blob. -/
theorem store_roundtrip_witness :
    saveRecipeToStorage none ⟨"Tomato Pasta", "d", ["Tomatoes"], ["Boil"], none⟩
        = (some [⟨"Tomato Pasta", "d", ["Tomatoes"], ["Boil"], none⟩], OpResult.ok) ∧
    getSavedRecipes
        (saveRecipeToStorage none ⟨"Tomato Pasta", "d", ["Tomatoes"], ["Boil"], none⟩).1
      = [⟨"Tomato Pasta", "d", ["Tomatoes"], ["Boil"], none⟩] :=
  store_roundtrip none ⟨"Tomato Pasta", "d", ["Tomatoes"], ["Boil"], none⟩ (by decide)

/-- C6: `Store.remove` removes every stored entry whose name equals the
given name exactly (case-sensitively) and persists regardless, so removing
an absent name is an idempotent no-op; entries gone means an exact-match
`contains` can no longer see them, while an entry matching only
case-insensitively (different case) is not removed. -/
theorem store_remove_spec (store : Storage) (nm : String) :
    ((∀ r ∈ getSavedRecipes store, r.recipeName ≠ nm) →
      removeRecipeFromStorage store nm = (some (getSavedRecipes store), OpResult.ok)) ∧
    (∀ r ∈ getSavedRecipes (removeRecipeFromStorage store nm).1, r.recipeName ≠ nm) ∧
    (∀ r ∈ getSavedRecipes store, r.recipeName ≠ nm →
      r ∈ getSavedRecipes (removeRecipeFromStorage store nm).1) ∧
    ((∀ r ∈ getSavedRecipes store, nameEqCI r.recipeName nm = true → r.recipeName = nm) →
      isRecipeSaved (removeRecipeFromStorage store nm).1 nm = false) := by
  refine ⟨?_, ?_, ?_, ?_⟩
  · intro hnone
    simp only [removeRecipeFromStorage]
    rw [List.filter_eq_self.mpr]
    intro r hr
    simpa using hnone r hr
  · intro r hr
    simp only [removeRecipeFromStorage, getSavedRecipes] at hr
    have := (List.mem_filter.mp hr).2
    simpa using this
  · intro r hr hne
    simp only [removeRecipeFromStorage, getSavedRecipes]
    exact List.mem_filter.mpr ⟨hr, by simpa using hne⟩
  · intro hexact
    rw [isRecipeSaved_false_iff]
    intro r hr
    simp only [removeRecipeFromStorage, getSavedRecipes] at hr
    obtain ⟨hmem, hkeep⟩ := List.mem_filter.mp hr
    cases hq : nameEqCI r.recipeName nm with
    | false => rfl
    | true =>
      have : r.recipeName = nm := hexact r hmem hq
      simp [this] at hkeep

/-- C6 witness: removing "Soup" from a store holding "Soup" and "SOUP"
deletes only the exact match and keeps the differently-cased entry; removing
an absent name leaves the stored list unchanged. -/
theorem store_remove_spec_witness :
    (removeRecipeFromStorage (some [⟨"Soup", "", [], [], none⟩]) "Stew"
        = (some (getSavedRecipes (some [⟨"Soup", "", [], [], none⟩])), OpResult.ok)) ∧
    (∀ r ∈ getSavedRecipes
        (removeRecipeFromStorage (some [⟨"Soup", "", [], [], none⟩]) "Soup").1,
      r.recipeName ≠ "Soup") ∧
    ((⟨"SOUP", "", [], [], none⟩ : Recipe) ∈ getSavedRecipes
        (removeRecipeFromStorage (some [⟨"SOUP", "", [], [], none⟩]) "Soup").1) ∧
    (isRecipeSaved (removeRecipeFromStorage (some [⟨"Soup", "", [], [], none⟩]) "Soup").1
        "Soup" = false) :=
  ⟨(store_remove_spec (some [⟨"Soup", "", [], [], none⟩]) "Stew").1 (by decide),
   (store_remove_spec (some [⟨"Soup", "", [], [], none⟩]) "Soup").2.1,
   (store_remove_spec (some [⟨"SOUP", "", [], [], none⟩]) "Soup").2.2.1
      ⟨"SOUP", "", [], [], none⟩ (by decide) (by decide),
   (store_remove_spec (some [⟨"Soup", "", [], [], none⟩]) "Soup").2.2.2 (by decide)⟩

/-- C8: on every failure path (DuplicateName from add, NotFound from
replace, DuplicateName from commitEdit) no write occurs: the storage
returned by the failed call is exactly the storage before it. -/
theorem failure_atomicity (store : Storage) :
    (∀ r s2, saveRecipeToStorage store r = (s2, OpResult.duplicateName) → s2 = store) ∧
    (∀ orig upd s2,
      updateRecipeInStorage store orig upd = (s2, OpResult.notFound) → s2 = store) ∧
    (∀ original nameRaw descRaw ingRaw insRaw img s2,
      commitEdit store original nameRaw descRaw ingRaw insRaw img
        = (s2, OpResult.duplicateName) → s2 = store) := by
  refine ⟨?_, ?_, ?_⟩
  · intro r s2 hcall
    cases hsv : isRecipeSaved store r.recipeName with
    | false =>
      rw [saveRecipeToStorage_of_not_saved hsv] at hcall
      have h2 := congrArg Prod.snd hcall
      simp at h2
    | true =>
      rw [saveRecipeToStorage_of_saved hsv] at hcall
      exact (congrArg Prod.fst hcall).symm
  · intro orig upd s2 hcall
    cases hsv : isRecipeSaved store orig with
    | false =>
      rw [updateRecipeInStorage_not_found upd hsv] at hcall
      exact (congrArg Prod.fst hcall).symm
    | true =>
      obtain ⟨A, m, B, _, _, _, heq⟩ := updateRecipeInStorage_found upd hsv
      rw [heq] at hcall
      have h2 := congrArg Prod.snd hcall
      simp at h2
  · intro original nameRaw descRaw ingRaw insRaw img s2 hcall
    simp only [commitEdit] at hcall
    split at hcall
    · exact (congrArg Prod.fst hcall).symm
    · cases hsv : isRecipeSaved store original.recipeName with
      | false =>
        rw [updateRecipeInStorage_not_found _ hsv] at hcall
        have h2 := congrArg Prod.snd hcall
        simp at h2
      | true =>
        obtain ⟨A, m, B, _, _, _, heq⟩ := updateRecipeInStorage_found
          (mkEditedRecipe original nameRaw descRaw ingRaw insRaw img) hsv
        rw [heq] at hcall
        have h2 := congrArg Prod.snd hcall
        simp at h2

/-- C8 witness: a duplicate add, a missed replace, and a duplicate-name
commitEdit each leave the concrete one-entry storage untouched. -/
theorem failure_atomicity_witness :
    ((saveRecipeToStorage (some [⟨"Soup", "", [], [], none⟩]) ⟨"soup", "", [], [], none⟩).1
      = some [⟨"Soup", "", [], [], none⟩]) ∧
    ((updateRecipeInStorage (some [⟨"Soup", "", [], [], none⟩]) "Stew"
        ⟨"Stew", "", [], [], none⟩).1 = some [⟨"Soup", "", [], [], none⟩]) ∧
    ((commitEdit (some [⟨"Soup", "", [], [], none⟩, ⟨"Stew", "", [], [], none⟩])
        ⟨"Soup", "", [], [], none⟩ "Stew" "" "x" "y" none).1
      = some [⟨"Soup", "", [], [], none⟩, ⟨"Stew", "", [], [], none⟩]) :=
  ⟨(failure_atomicity (some [⟨"Soup", "", [], [], none⟩])).1
      ⟨"soup", "", [], [], none⟩ _ (by decide),
   (failure_atomicity (some [⟨"Soup", "", [], [], none⟩])).2.1 "Stew"
      ⟨"Stew", "", [], [], none⟩ _ (by decide),
   (failure_atomicity (some [⟨"Soup", "", [], [], none⟩, ⟨"Stew", "", [], [], none⟩])).2.2
      ⟨"Soup", "", [], [], none⟩ "Stew" "" "x" "y" none _ (by decide)⟩

/-- C9 (implicit): the manual add-recipe handler rejects its input before
any Store write whenever the trimmed name is empty, the derived ingredient
list is empty, or the derived instruction list is empty; every recipe it
hands to the Store has a non-empty name and at least one ingredient and one
instruction. -/
theorem manual_add_validation (store : Storage) (nameRaw descRaw ingRaw insRaw : String)
    (img : Option String) :
    ((trimString nameRaw = "" ∨ splitNonEmptyLines ingRaw = []
        ∨ splitNonEmptyLines insRaw = []) →
      handleAddRecipe store nameRaw descRaw ingRaw insRaw img
        = (store, OpResult.invalidInput)) ∧
    ((trimString nameRaw ≠ "" ∧ splitNonEmptyLines ingRaw ≠ []
        ∧ splitNonEmptyLines insRaw ≠ []) →
      handleAddRecipe store nameRaw descRaw ingRaw insRaw img
          = saveRecipeToStorage store (mkManualRecipe nameRaw descRaw ingRaw insRaw img) ∧
        (mkManualRecipe nameRaw descRaw ingRaw insRaw img).recipeName ≠ "" ∧
        (mkManualRecipe nameRaw descRaw ingRaw insRaw img).ingredients ≠ [] ∧
        (mkManualRecipe nameRaw descRaw ingRaw insRaw img).instructions ≠ []) := by
  constructor
  · intro hbad
    have hcond : ((trimString nameRaw == "") || (splitNonEmptyLines ingRaw).isEmpty
        || (splitNonEmptyLines insRaw).isEmpty) = true := by
      rcases hbad with h | h | h <;> simp [h]
    simp [handleAddRecipe, mkManualRecipe, hcond]
  · rintro ⟨h1, h2, h3⟩
    have hcond : ((trimString nameRaw == "") || (splitNonEmptyLines ingRaw).isEmpty
        || (splitNonEmptyLines insRaw).isEmpty) = false := by
      simp [h1, h2, h3]
    exact ⟨by simp [handleAddRecipe, mkManualRecipe, hcond],
      by simpa [mkManualRecipe] using h1,
      by simpa [mkManualRecipe] using h2,
      by simpa [mkManualRecipe] using h3⟩

/-- C9 witness: a blank name is rejected without a write, and a filled form
reaches the Store with non-empty name and lists. -/
theorem manual_add_validation_witness :
    (handleAddRecipe none "  " "d" "i" "s" none = (none, OpResult.invalidInput)) ∧
    (handleAddRecipe none "N" "d" "i1\ni2" "s1" none
        = saveRecipeToStorage none (mkManualRecipe "N" "d" "i1\ni2" "s1" none) ∧
      (mkManualRecipe "N" "d" "i1\ni2" "s1" none).recipeName ≠ "" ∧
      (mkManualRecipe "N" "d" "i1\ni2" "s1" none).ingredients ≠ [] ∧
      (mkManualRecipe "N" "d" "i1\ni2" "s1" none).instructions ≠ []) :=
  ⟨(manual_add_validation none "  " "d" "i" "s" none).1 (Or.inl (by decide)),
   (manual_add_validation none "N" "d" "i1\ni2" "s1" none).2
      ⟨by decide, by decide, by decide⟩⟩

/-- C10 (implicit): when `Store.replace` finds a match (at the index
`findIdx?` returns), the resulting stored collection has the same length as
before, holds the updated recipe at exactly that index, and every other
position is unchanged. -/
theorem replace_frame_spec (store : Storage) (orig : String) (upd : Recipe)
    (h : isRecipeSaved store orig = true) :
    (getSavedRecipes (updateRecipeInStorage store orig upd).1).length
        = (getSavedRecipes store).length ∧
    ∃ i, (getSavedRecipes store).findIdx? (fun r => nameEqCI r.recipeName orig)
        = some i ∧
      (getSavedRecipes (updateRecipeInStorage store orig upd).1)[i]? = some upd ∧
      ∀ j, j ≠ i →
        (getSavedRecipes (updateRecipeInStorage store orig upd).1)[j]?
          = (getSavedRecipes store)[j]? := by
  have hsome : ((getSavedRecipes store).findIdx?
      (fun r => nameEqCI r.recipeName orig)).isSome = true := by
    rw [List.findIdx?_isSome]
    exact h
  obtain ⟨i, hfind⟩ := Option.isSome_iff_exists.mp hsome
  obtain ⟨hi, -, -⟩ := List.findIdx?_eq_some_iff_getElem.mp hfind
  have hupd : updateRecipeInStorage store orig upd
      = (some ((getSavedRecipes store).set i upd), OpResult.ok) := by
    simp only [updateRecipeInStorage]
    rw [hfind]
  rw [hupd]
  refine ⟨by simp [getSavedRecipes], i, hfind, ?_, ?_⟩
  · show ((getSavedRecipes store).set i upd)[i]? = some upd
    simp [List.getElem?_set_self hi]
  · intro j hj
    show ((getSavedRecipes store).set i upd)[j]? = (getSavedRecipes store)[j]?
    exact List.getElem?_set_ne (Ne.symm hj)

/-- C10 witness: replacing "a" in a two-entry store keeps length and the
second entry, and rewrites index 0. -/
theorem replace_frame_spec_witness :
    (getSavedRecipes (updateRecipeInStorage
        (some [⟨"A", "", [], [], none⟩, ⟨"B", "", [], [], none⟩]) "a"
        ⟨"C", "", [], [], none⟩).1).length
      = (getSavedRecipes (some [⟨"A", "", [], [], none⟩, ⟨"B", "", [], [], none⟩])).length ∧
    ∃ i, (getSavedRecipes
        (some [⟨"A", "", [], [], none⟩, ⟨"B", "", [], [], none⟩])).findIdx?
          (fun r => nameEqCI r.recipeName "a") = some i ∧
      (getSavedRecipes (updateRecipeInStorage
          (some [⟨"A", "", [], [], none⟩, ⟨"B", "", [], [], none⟩]) "a"
          ⟨"C", "", [], [], none⟩).1)[i]? = some ⟨"C", "", [], [], none⟩ ∧
      ∀ j, j ≠ i →
        (getSavedRecipes (updateRecipeInStorage
            (some [⟨"A", "", [], [], none⟩, ⟨"B", "", [], [], none⟩]) "a"
            ⟨"C", "", [], [], none⟩).1)[j]?
          = (getSavedRecipes (some [⟨"A", "", [], [], none⟩, ⟨"B", "", [], [], none⟩]))[j]? :=
  replace_frame_spec (some [⟨"A", "", [], [], none⟩, ⟨"B", "", [], [], none⟩]) "a"
    ⟨"C", "", [], [], none⟩ (by decide)

/-- C5 counterexample: a parsed response that is missing the required
`description` field does NOT surface as an invalid-response error — the
code never re-validates the schema and the description is only
string-interpolated, so the handler renders a Recipe whose description is
the literal text "undefined". -/
theorem generation_missing_description_yields_recipe :
    generateRecipeFromResponse (some ⟨JsVal.str "Tomato Pasta", JsVal.undef,
        JsVal.strList ["Tomatoes", "Pasta"], JsVal.strList ["Boil pasta", "Add sauce"]⟩)
      = Except.ok ⟨"Tomato Pasta", "undefined", ["Tomatoes", "Pasta"],
          ["Boil pasta", "Add sauce"], none⟩ := rfl

/-- C5 amended: a well-formed response with all four required fields yields
a Recipe with `imageUrl` absent; a response that fails to parse yields the
invalid-response error, as does one whose `recipeName` is not a string or
whose `ingredients` or `instructions` is not an array; but a response
missing only `description` still yields a Recipe (with description
"undefined") instead of an error. -/
theorem generation_validation_amended :
    (∀ n d ing ins,
      generateRecipeFromResponse
          (some ⟨JsVal.str n, JsVal.str d, JsVal.strList ing, JsVal.strList ins⟩)
        = Except.ok ⟨n, d, ing, ins, none⟩) ∧
    (generateRecipeFromResponse none = Except.error GenError.invalidResponse) ∧
    (∀ p : GenResponse,
      ((∀ s, p.recipeName ≠ JsVal.str s) ∨ (∀ l, p.ingredients ≠ JsVal.strList l)
        ∨ (∀ l, p.instructions ≠ JsVal.strList l)) →
      generateRecipeFromResponse (some p) = Except.error GenError.invalidResponse) ∧
    (∀ n ing ins,
      generateRecipeFromResponse
          (some ⟨JsVal.str n, JsVal.undef, JsVal.strList ing, JsVal.strList ins⟩)
        = Except.ok ⟨n, "undefined", ing, ins, none⟩) := by
  refine ⟨fun n d ing ins => rfl, rfl, ?_, fun n ing ins => rfl⟩
  rintro ⟨a, b, c, d⟩ hbad
  cases a <;> cases c <;> cases d <;>
    first
      | rfl
      | (rcases hbad with h | h | h <;> exact absurd rfl (h _))

/-- C5 amended witness: a document whose `recipeName` key is missing is
rejected as an invalid response. -/
theorem generation_validation_amended_witness :
    generateRecipeFromResponse
        (some ⟨JsVal.undef, JsVal.str "d", JsVal.strList ["i"], JsVal.strList ["s"]⟩)
      = Except.error GenError.invalidResponse :=
  generation_validation_amended.2.2.1
    ⟨JsVal.undef, JsVal.str "d", JsVal.strList ["i"], JsVal.strList ["s"]⟩
    (Or.inl fun _ h => JsVal.noConfusion h)

/-- C1 counterexample: the uniqueness invariant is NOT preserved by the raw
replace operation. Starting from the empty collection, add "A", add "B",
then replace "A" by a recipe renamed to "B": the first two states are
unique, but the replace produces two stored recipes both named "B". -/
theorem uniqueness_not_preserved_by_replace :
    uniqueNames (getSavedRecipes
      (saveRecipeToStorage (saveRecipeToStorage none ⟨"A", "", [], [], none⟩).1
        ⟨"B", "", [], [], none⟩).1) ∧
    ¬ uniqueNames (getSavedRecipes
      (updateRecipeInStorage
        (saveRecipeToStorage (saveRecipeToStorage none ⟨"A", "", [], [], none⟩).1
          ⟨"B", "", [], [], none⟩).1
        "A" ⟨"B", "x", [], [], none⟩).1) := by
  constructor
  · decide
  · decide

/-- C1 amended: starting from a collection satisfying the invariant, the
invariant is preserved by add and by remove unconditionally, and by every
replace that goes through the commitEdit guard (the only replace call site
in the program); the raw replace alone can break it, as the counterexample
shows. -/
theorem uniqueness_preservation (store : Storage)
    (h : uniqueNames (getSavedRecipes store)) :
    (∀ r, uniqueNames (getSavedRecipes (saveRecipeToStorage store r).1)) ∧
    (∀ nm, uniqueNames (getSavedRecipes (removeRecipeFromStorage store nm).1)) ∧
    (∀ original nameRaw descRaw ingRaw insRaw img,
      uniqueNames (getSavedRecipes
        (commitEdit store original nameRaw descRaw ingRaw insRaw img).1)) := by
  refine ⟨?_, ?_, ?_⟩
  · intro r
    cases hsv : isRecipeSaved store r.recipeName with
    | true =>
      rw [saveRecipeToStorage_of_saved hsv]
      exact h
    | false =>
      rw [saveRecipeToStorage_of_not_saved hsv]
      show uniqueNames (getSavedRecipes store ++ [r])
      unfold uniqueNames at h ⊢
      rw [List.map_append, List.nodup_append]
      refine ⟨h, List.nodup_singleton _, ?_⟩
      intro a ha hb
      simp only [List.map_cons, List.map_nil, List.mem_singleton] at hb
      obtain ⟨x, hx, hxa⟩ := List.mem_map.mp ha
      rw [isRecipeSaved_false_iff] at hsv
      have hne := nameEqCI_false_iff.mp (hsv x hx)
      exact hne (hxa.trans hb)
  · intro nm
    show uniqueNames ((getSavedRecipes store).filter fun r => r.recipeName != nm)
    unfold uniqueNames at h ⊢
    exact List.Nodup.sublist (List.Sublist.map _ (List.filter_sublist _)) h
  · intro original nameRaw descRaw ingRaw insRaw img
    simp only [commitEdit]
    split
    · exact h
    · rename_i hguard
      cases hsv : isRecipeSaved store original.recipeName with
      | false =>
        rw [updateRecipeInStorage_not_found _ hsv]
        exact h
      | true =>
        obtain ⟨A, m, B, hsplit, hA, hm, heq⟩ := updateRecipeInStorage_found
          (mkEditedRecipe original nameRaw descRaw ingRaw insRaw img) hsv
        rw [heq]
        show uniqueNames (A ++ mkEditedRecipe original nameRaw descRaw ingRaw insRaw img :: B)
        have hg : ((toLowerCase (mkEditedRecipe original nameRaw descRaw ingRaw insRaw
            img).recipeName != toLowerCase original.recipeName)
            && isRecipeSaved store (mkEditedRecipe original nameRaw descRaw ingRaw insRaw
              img).recipeName) = false := by
          revert hguard
          cases ((toLowerCase (mkEditedRecipe original nameRaw descRaw ingRaw insRaw
              img).recipeName != toLowerCase original.recipeName)
              && isRecipeSaved store (mkEditedRecipe original nameRaw descRaw ingRaw insRaw
                img).recipeName) <;> simp
        rcases Bool.and_eq_false_iff.mp hg with hsame | hnot
        · have hfe : toLowerCase (mkEditedRecipe original nameRaw descRaw ingRaw insRaw
              img).recipeName = toLowerCase original.recipeName := by
            simpa using hsame
          have hfm : toLowerCase (mkEditedRecipe original nameRaw descRaw ingRaw insRaw
              img).recipeName = toLowerCase m.recipeName := by
            rw [hfe, ← nameEqCI_true_iff.mp hm]
          unfold uniqueNames at h ⊢
          rw [hsplit] at h
          simp only [List.map_append, List.map_cons] at h ⊢
          rw [hfm]
          exact h
        · unfold uniqueNames at h ⊢
          rw [hsplit] at h
          simp only [List.map_append, List.map_cons] at h ⊢
          rw [List.nodup_middle] at h ⊢
          rw [List.nodup_cons] at h ⊢
          refine ⟨?_, h.2⟩
          intro hmem
          rw [isRecipeSaved_false_iff] at hnot
          rw [List.mem_append] at hmem
          rcases hmem with hmem | hmem <;> obtain ⟨x, hx, hxe⟩ := List.mem_map.mp hmem
          · have hxs : x ∈ getSavedRecipes store := by
              rw [hsplit]
              exact List.mem_append.mpr (Or.inl hx)
            exact nameEqCI_false_iff.mp (hnot x hxs) hxe
          · have hxs : x ∈ getSavedRecipes store := by
              rw [hsplit]
              exact List.mem_append.mpr (Or.inr (List.mem_cons_of_mem _ hx))
            exact nameEqCI_false_iff.mp (hnot x hxs) hxe

/-- C1 amended witness: a store holding "A" stays duplicate-free under a
concrete add, remove, and commitEdit. -/
theorem uniqueness_preservation_witness :
    uniqueNames (getSavedRecipes (some [(⟨"A", "", [], [], none⟩ : Recipe)])) ∧
    uniqueNames (getSavedRecipes
      (saveRecipeToStorage (some [⟨"A", "", [], [], none⟩]) ⟨"B", "", [], [], none⟩).1) ∧
    uniqueNames (getSavedRecipes
      (removeRecipeFromStorage (some [⟨"A", "", [], [], none⟩]) "A").1) ∧
    uniqueNames (getSavedRecipes
      (commitEdit (some [⟨"A", "", [], [], none⟩]) ⟨"A", "", [], [], none⟩
        "B" "" "" "" none).1) :=
  ⟨by decide,
   (uniqueness_preservation (some [⟨"A", "", [], [], none⟩]) (by decide)).1
      ⟨"B", "", [], [], none⟩,
   (uniqueness_preservation (some [⟨"A", "", [], [], none⟩]) (by decide)).2.1 "A",
   (uniqueness_preservation (some [⟨"A", "", [], [], none⟩]) (by decide)).2.2
      ⟨"A", "", [], [], none⟩ "B" "" "" "" none⟩

/-- C4: the rename contract of the saveEditBtn handler. For a stored
original recipe and an edited name that differs case-insensitively from the
original name: if the new name is already stored (necessarily by a
different recipe), the handler fails with the duplicate alert and storage is
unchanged, so the original entry is still present unmodified; if the new
name is not stored, the edit succeeds, the store no longer contains the
original name, and it contains the new name with exactly the edited
fields. -/
theorem commitEdit_rename_contract (store : Storage) (original : Recipe)
    (nameRaw descRaw ingRaw insRaw : String) (img : Option String) (upd : Recipe)
    (hupd : upd = mkEditedRecipe original nameRaw descRaw ingRaw insRaw img)
    (hdiff : toLowerCase upd.recipeName ≠ toLowerCase original.recipeName) :
    (isRecipeSaved store upd.recipeName = true →
      commitEdit store original nameRaw descRaw ingRaw insRaw img
        = (store, OpResult.duplicateName)) ∧
    (uniqueNames (getSavedRecipes store) →
      isRecipeSaved store original.recipeName = true →
      isRecipeSaved store upd.recipeName = false →
      (commitEdit store original nameRaw descRaw ingRaw insRaw img).2 = OpResult.ok ∧
      isRecipeSaved (commitEdit store original nameRaw descRaw ingRaw insRaw img).1
          original.recipeName = false ∧
      upd ∈ getSavedRecipes (commitEdit store original nameRaw descRaw ingRaw insRaw
          img).1 ∧
      isRecipeSaved (commitEdit store original nameRaw descRaw ingRaw insRaw img).1
          upd.recipeName = true) := by
  have hbne : (toLowerCase upd.recipeName != toLowerCase original.recipeName) = true := by
    simpa using hdiff
  constructor
  · intro hdup
    simp only [commitEdit, ← hupd]
    rw [if_pos]
    rw [hbne, hdup]
    rfl
  · intro huniq hsaved hnew
    have hguard : ((toLowerCase upd.recipeName != toLowerCase original.recipeName)
        && isRecipeSaved store upd.recipeName) = false := by
      rw [hbne, hnew]
      rfl
    obtain ⟨A, m, B, hsplit, hA, hm, heq⟩ := updateRecipeInStorage_found upd hsaved
    have hcall : commitEdit store original nameRaw descRaw ingRaw insRaw img
        = (some (A ++ upd :: B), OpResult.ok) := by
      simp only [commitEdit, ← hupd]
      rw [if_neg]
      · exact heq
      · rw [hguard]
        exact Bool.false_ne_true
    rw [hcall]
    refine ⟨rfl, ?_, ?_, ?_⟩
    · rw [isRecipeSaved_false_iff]
      intro r hr
      show nameEqCI r.recipeName original.recipeName = false
      have hr' : r ∈ A ++ upd :: B := hr
      rw [List.mem_append] at hr'
      rcases hr' with hrA | hrB
      · exact hA r hrA
      · rcases List.mem_cons.mp hrB with rfl | hrB
        · rw [nameEqCI_false_iff]
          exact hdiff
        · rw [nameEqCI_false_iff]
          intro hcontra
          have hmL : toLowerCase m.recipeName = toLowerCase original.recipeName :=
            nameEqCI_true_iff.mp hm
          unfold uniqueNames at huniq
          rw [hsplit] at huniq
          simp only [List.map_append, List.map_cons] at huniq
          rw [List.nodup_middle, List.nodup_cons] at huniq
          exact huniq.1 (List.mem_append.mpr (Or.inr (List.mem_map.mpr
            ⟨r, hrB, hcontra.trans hmL.symm⟩)))
    · show upd ∈ A ++ upd :: B
      exact List.mem_append.mpr (Or.inr (List.mem_cons_self _ _))
    · rw [isRecipeSaved_true_iff]
      exact ⟨upd, List.mem_append.mpr (Or.inr (List.mem_cons_self _ _)),
        nameEqCI_refl _⟩

/-- C4 witness: renaming stored "Soup" to "Stew" fails with the duplicate
alert when another recipe "Stew" exists and the storage is unchanged; it
succeeds when no recipe is named "Stew", after which the store contains
"Stew" with the edited fields and no longer contains "Soup". -/
theorem commitEdit_rename_contract_witness :
    (commitEdit (some [⟨"Soup", "", [], [], none⟩, ⟨"Stew", "", [], [], none⟩])
        ⟨"Soup", "", [], [], none⟩ "Stew" "d" "i" "s" none
      = (some [⟨"Soup", "", [], [], none⟩, ⟨"Stew", "", [], [], none⟩],
          OpResult.duplicateName)) ∧
    ((commitEdit (some [⟨"Soup", "", [], [], none⟩]) ⟨"Soup", "", [], [], none⟩
        "Stew" "d" "i" "s" none).2 = OpResult.ok ∧
      isRecipeSaved (commitEdit (some [⟨"Soup", "", [], [], none⟩])
          ⟨"Soup", "", [], [], none⟩ "Stew" "d" "i" "s" none).1 "Soup" = false ∧
      mkEditedRecipe ⟨"Soup", "", [], [], none⟩ "Stew" "d" "i" "s" none ∈
        getSavedRecipes (commitEdit (some [⟨"Soup", "", [], [], none⟩])
          ⟨"Soup", "", [], [], none⟩ "Stew" "d" "i" "s" none).1 ∧
      isRecipeSaved (commitEdit (some [⟨"Soup", "", [], [], none⟩])
          ⟨"Soup", "", [], [], none⟩ "Stew" "d" "i" "s" none).1
        (mkEditedRecipe ⟨"Soup", "", [], [], none⟩ "Stew" "d" "i" "s" none).recipeName
        = true) :=
  ⟨(commitEdit_rename_contract
      (some [⟨"Soup", "", [], [], none⟩, ⟨"Stew", "", [], [], none⟩])
      ⟨"Soup", "", [], [], none⟩ "Stew" "d" "i" "s" none _ rfl (by decide)).1
      (by decide),
   (commitEdit_rename_contract (some [⟨"Soup", "", [], [], none⟩])
      ⟨"Soup", "", [], [], none⟩ "Stew" "d" "i" "s" none _ rfl (by decide)).2
      (by decide) (by decide) (by decide)⟩
